import Mathlib

/-!
Verification of `src/condense.py` (immersion_condenser).

This file shallowly embeds the core of `condense.py`:

* the `Subtitle` dataclass and its `order=True` comparison,
* `SRT.sort_and_reindex` (Python `sorted` modelled as a stable insertion
  sort driven by the same fallible `__lt__`),
* the timestamp codec `SRT.srt_timestamp_to_timedelta` /
  `SRT.timedelta_to_srt_timestamp` (durations are integers counting
  microseconds, the resolution of `datetime.timedelta`),
* the contiguity check `SRT._check_contiguity` and the gap-checking walk
  of `SRT.parse`,
* the content-filter stage of `parse_srt`.

Definitions come first, then the theorems settling the specification
claims about those functions.
-/

namespace Condense

/-- Python `str.isspace` on a single character: the Unicode whitespace
set used by `strip()`/`isspace()` (ASCII whitespace, the C1 separators,
NBSP and the Unicode space separators). -/
def pyIsSpace (c : Char) : Bool :=
  c.toNat ∈ [9, 10, 11, 12, 13, 28, 29, 30, 31, 32, 133, 160, 0x1680,
    0x2000, 0x2001, 0x2002, 0x2003, 0x2004, 0x2005, 0x2006, 0x2007,
    0x2008, 0x2009, 0x200A, 0x2028, 0x2029, 0x202F, 0x205F, 0x3000]

/-- The character class `[0-9]` used by the timestamp regexes. -/
def isDigitC (c : Char) : Bool := decide ('0' ≤ c) && decide (c ≤ '9')

/-- `RGX_TIMESTAMP_MAGNITUDE_DELIM = r"[,.:，．。：]"`: the delimiter
class between timestamp fields. -/
def isTsDelim (c : Char) : Bool :=
  c = ',' || c = '.' || c = ':' || c = '，' || c = '．' || c = '。' || c = '：'

/-- The decimal digit character for `n % 10`, as produced by `%d`
formatting. -/
def digitChar (n : Nat) : Char :=
  match n with
  | 0 => '0' | 1 => '1' | 2 => '2' | 3 => '3' | 4 => '4'
  | 5 => '5' | 6 => '6' | 7 => '7' | 8 => '8' | _ => '9'

/-- Decimal rendering of a natural number (the digit stream produced by
Python `%d` on a non-negative int). -/
def natDigits (n : Nat) : List Char :=
  if _h : n < 10 then [digitChar n]
  else natDigits (n / 10) ++ [digitChar (n % 10)]
termination_by n
decreasing_by
  exact Nat.div_lt_self (by omega) (by omega)

/-- Numeric value of a digit character. -/
def digitVal (c : Char) : Nat := c.toNat - 48

/-- Accumulating decimal evaluation of a digit string; `natOfDigits`
below models Python `int()` on a (non-empty) string of digits, and
evaluates the digit groups captured by the timestamp regex. -/
def natOfDigitsAux (acc : Nat) : List Char → Nat
  | [] => acc
  | c :: rest => natOfDigitsAux (acc * 10 + digitVal c) rest

def natOfDigits (l : List Char) : Nat := natOfDigitsAux 0 l

/-- Zero padding on the left to width `w` (the `0`-fill of `%02d`/`%03d`
on a non-negative value). -/
def natPad (w : Nat) (l : List Char) : List Char :=
  List.replicate (w - l.length) '0' ++ l

/-! ## Timestamp codec

`SRT.TS_REGEX` is `^(\d+)D(\d+)D(\d+)D?(\d*)$` where `D` is the delimiter
class `[,.:，．。：]` and the digit classes are literal `[0-9]`.  Since
the digit class and the delimiter class are disjoint, the regex
backtracking is equivalent to the deterministic greedy scan implemented
by `tsMatch` below.  Python's `$` matches at the end of the string or
just before a single trailing `'\n'`, which `tsAtEnd` reproduces. -/

/-- `re` end-of-string anchor `$` (in non-MULTILINE mode). -/
def tsAtEnd : List Char → Bool
  | [] => true
  | [c] => c = '\n'
  | _ :: _ :: _ => false

/-- The match of `SRT.TS_REGEX` against a character list, returning the
four captured digit groups (hours, minutes, seconds, fraction; the
fraction group may be empty). -/
def tsMatch (l : List Char) : Option (List Char × List Char × List Char × List Char) :=
  let hh := l.takeWhile isDigitC
  let r1 := l.dropWhile isDigitC
  if hh.isEmpty then none else
  match r1 with
  | [] => none
  | d1 :: r2 =>
    if !isTsDelim d1 then none else
    let mm := r2.takeWhile isDigitC
    let r3 := r2.dropWhile isDigitC
    if mm.isEmpty then none else
    match r3 with
    | [] => none
    | d2 :: r4 =>
      if !isTsDelim d2 then none else
      let ss := r4.takeWhile isDigitC
      let r5 := r4.dropWhile isDigitC
      if ss.isEmpty then none else
      match r5 with
      | [] => some (hh, mm, ss, [])
      | d3 :: r6 =>
        if isTsDelim d3 then
          let ff := r6.takeWhile isDigitC
          let r7 := r6.dropWhile isDigitC
          if tsAtEnd r7 then some (hh, mm, ss, ff) else none
        else if tsAtEnd r5 then some (hh, mm, ss, []) else none

/-- The value `timedelta(hours=h, minutes=m, seconds=s, milliseconds=ms)`
in microseconds. -/
def usOf (h m s ms : Nat) : Int :=
  (((h * 3600 + m * 60 + s) * 1000 + ms : Nat) : Int) * 1000

/-- `SRT.srt_timestamp_to_timedelta`: match the timestamp against
`TS_REGEX`; on failure raise (`Except.error` with the message text), on
success convert the four groups with `int(m) if m else 0` and build the
`timedelta`.  Note the fraction digits are passed to
`timedelta(milliseconds=...)` as a plain integer, with no scaling by
digit count. -/
def srtTimestampToTimedelta (ts : String) : Except String Int :=
  match tsMatch ts.data with
  | none => .error ("Unparseable timestamp: " ++ ts)
  | some (hh, mm, ss, ff) =>
    .ok (usOf (natOfDigits hh) (natOfDigits mm) (natOfDigits ss) (natOfDigits ff))

/-- Python `"%02d" % i` / `"%03d" % i`: zero-fill to total width `w`,
sign included. -/
def pyFmtD (w : Nat) (i : Int) : List Char :=
  if i < 0 then '-' :: natPad (w - 1) (natDigits (-i).toNat)
  else natPad w (natDigits i.toNat)

/-- Microseconds in a day, for `timedelta`'s normalisation. -/
def usPerDay : Int := 86400000000

/-- `timedelta.days` for a total microsecond count: Python normalises
with floor division, which is `Int` `/` (`Int.ediv`) for the positive
divisor. -/
def tdDays (d : Int) : Int := d / usPerDay

/-- `timedelta.seconds * 10^6 + timedelta.microseconds`: the non-negative
remainder of the day normalisation. -/
def tdRem (d : Int) : Int := d % usPerDay

/-- `SRT.timedelta_to_srt_timestamp`: `hours, rem = divmod(td.seconds,
3600); hours += td.days * 24; minutes, seconds = divmod(rem, 60);
milliseconds = td.microseconds // 1000;
return "%02d:%02d:%02d,%03d" % ...`. -/
def timedeltaToSrtTimestamp (d : Int) : String :=
  let secs := tdRem d / 1000000
  let micro := tdRem d % 1000000
  let hours := secs / 3600 + tdDays d * 24
  let minutes := secs % 3600 / 60
  let seconds := secs % 3600 % 60
  let millis := micro / 1000
  String.mk (pyFmtD 2 hours ++ ':' :: pyFmtD 2 minutes ++ ':' :: pyFmtD 2 seconds
    ++ ',' :: pyFmtD 3 millis)

/-- `format_timedelta`: the SRT timestamp with the decimal separator
changed to a period for ffmpeg (`str.replace(",", ".")`; the separator
is a single character, so `String.map` is equivalent). -/
def formatTimedelta (d : Int) : String :=
  (timedeltaToSrtTimestamp d).map (fun c => if c = ',' then '.' else c)

/-! ## The `Subtitle` dataclass and `sort_and_reindex` -/

/-- The `Subtitle` dataclass.  `index` is `Optional[int]` (`None` when
the entry in the buffer declared no index); `start`/`end` are
microsecond durations; `content` and `proprietary` are
`field(compare=False)` text fields. -/
structure Subtitle where
  index : Option Int
  start : Int
  «end» : Int
  content : String
  proprietary : String
deriving DecidableEq

/-- Comparison of the `(start, end)` tail of the dataclass field tuple. -/
def sLtB (a b : Subtitle) : Bool :=
  decide (a.start < b.start) || (decide (a.start = b.start) && decide (a.«end» < b.«end»))

/-- The dataclass `order=True` `__lt__`: lexicographic tuple comparison
of `(index, start, end)`.  Python `None == None` is `True` (comparison
moves to the next field), but `None < int` raises `TypeError`, modelled
as `Except.error`. -/
def pyLtSub (a b : Subtitle) : Except Unit Bool :=
  match a.index, b.index with
  | none, none => .ok (sLtB a b)
  | some i, some j => .ok (if i = j then sLtB a b else decide (i < j))
  | _, _ => .error ()

/-- Rank of the `index` field used by the total proof-side key: entries
without an index never successfully compare against entries with one, so
any total extension is sound; `none` is ranked below `some`. -/
def idxTag : Option Int → Int
  | none => 0
  | some _ => 1

def idxVal : Option Int → Int
  | none => 0
  | some i => i

/-- Proof-side total sort key of a subtitle: the dataclass comparison
tuple `(index, start, end)` flattened into four integers. -/
def keyOf (s : Subtitle) : Int × Int × Int × Int :=
  (idxTag s.index, idxVal s.index, s.start, s.«end»)

/-- Lexicographic order on the flattened key. -/
def keyLt (p q : Int × Int × Int × Int) : Prop :=
  p.1 < q.1 ∨ (p.1 = q.1 ∧ (p.2.1 < q.2.1 ∨ (p.2.1 = q.2.1 ∧
    (p.2.2.1 < q.2.2.1 ∨ (p.2.2.1 = q.2.2.1 ∧ p.2.2.2 < q.2.2.2)))))

instance (p q : Int × Int × Int × Int) : Decidable (keyLt p q) := by
  unfold keyLt
  infer_instance

/-- Total boolean comparison agreeing with `pyLtSub` whenever the latter
does not raise. -/
def ltKey (a b : Subtitle) : Bool := decide (keyLt (keyOf a) (keyOf b))

/-- Non-strict key order (the negation of the reverse strict order). -/
def keyLe (a b : Subtitle) : Prop := ¬ keyLt (keyOf b) (keyOf a)

/-- A subtitle without its `index` field, for stating which entries
survive reindexing unchanged. -/
def forgetIdx (s : Subtitle) : Int × Int × String × String :=
  (s.start, s.«end», s.content, s.proprietary)

/-- Stable insertion (after all equal elements) used to model Python's
stable `sorted`. -/
def insertSub (x : Subtitle) : List Subtitle → List Subtitle
  | [] => [x]
  | y :: ys => if ltKey x y then x :: y :: ys else y :: insertSub x ys

def sortLoop : List Subtitle → List Subtitle → List Subtitle
  | acc, [] => acc
  | acc, x :: xs => sortLoop (insertSub x acc) xs

/-- Pure left-to-right stable insertion sort by the total key. -/
def pureSorted (l : List Subtitle) : List Subtitle := sortLoop [] l

/-- Fallible stable insertion driven by the dataclass `__lt__`
(`pyLtSub`); raises exactly when `__lt__` raises on a compared pair. -/
def pyInsert (x : Subtitle) : List Subtitle → Except Unit (List Subtitle)
  | [] => .ok [x]
  | y :: ys =>
    match pyLtSub x y with
    | .error e => .error e
    | .ok true => .ok (x :: y :: ys)
    | .ok false => (pyInsert x ys).map (fun l => y :: l)

def pySortLoop : List Subtitle → List Subtitle → Except Unit (List Subtitle)
  | acc, [] => .ok acc
  | acc, x :: xs =>
    match pyInsert x acc with
    | .error e => .error e
    | .ok acc2 => pySortLoop acc2 xs

/-- Model of Python `sorted(subtitles)`: a stable comparison sort using
only `__lt__`.  On inputs where every performed comparison is defined it
agrees with any stable sort (CPython's timsort included); a comparison
between an indexed and an index-less subtitle raises `TypeError`. -/
def pySorted (l : List Subtitle) : Except Unit (List Subtitle) := pySortLoop [] l

/-- Python `str.strip()`. -/
def pyStrip (s : String) : String :=
  String.mk (((s.data.dropWhile pyIsSpace).reverse.dropWhile pyIsSpace).reverse)

/-- The skip test of `sort_and_reindex` (`skip=True` branch): empty
trimmed content, negative start, or `start >= end`. -/
def skipSub (s : Subtitle) : Bool :=
  decide (pyStrip s.content = "") || decide (s.start < 0) || decide (s.«end» ≤ s.start)

/-- The enumeration loop of `sort_and_reindex` over the sorted list:
`sub_num` counts from `start_index` over all entries, `skipped_subs`
counts skipped ones, survivors get `index = sub_num - skipped_subs`. -/
def reindexLoop : List Subtitle → Int → Nat → List Subtitle
  | [], _, _ => []
  | s :: rest, subNum, skipped =>
    if skipSub s then reindexLoop rest (subNum + 1) (skipped + 1)
    else { s with index := some (subNum - (skipped : Int)) } :: reindexLoop rest (subNum + 1) skipped

/-- `SRT.sort_and_reindex(subs, start_index, skip=True)` (with
`in_place=False`, which only copies values and has no observable effect
in a value semantics). -/
def sortAndReindex (subs : List Subtitle) (startIndex : Int) : Except Unit (List Subtitle) :=
  (pySorted subs).map (fun l => reindexLoop l startIndex 0)

/-- The drop test of `parse_srt`'s filter stage:
`filters and any(word in sub.content for word in filters)`.  The token
set is modelled as a list (membership is all that is used); `word in
content` is literal substring containment. -/
def matchesFilters (filters : List String) (s : Subtitle) : Bool :=
  !filters.isEmpty && filters.any (fun w => decide (w.data <:+: s.content.data))

/-- The content-filter stage of `parse_srt`: keep the subtitles the drop
test does not match. -/
def contentFilter (subs : List Subtitle) (filters : List String) : List Subtitle :=
  subs.filter (fun s => !matchesFilters filters s)

/-- The subtitle stream of `parse_srt` after `sort_and_reindex` and the
content filter, applied to an already-parsed subtitle list. -/
def parseSrtSubs (subs : List Subtitle) (filters : List String) : Except Unit (List Subtitle) :=
  (sortAndReindex subs 1).map (fun l => contentFilter l filters)

/-- The `Segment` stream of `parse_srt`: each surviving subtitle mapped
to its `(format_timedelta(start), format_timedelta(end))` pair. -/
def parseSrtSegments (subs : List Subtitle) (filters : List String) :
    Except Unit (List (String × String)) :=
  (parseSrtSubs subs filters).map (List.map (fun s =>
    (formatTimedelta s.start, formatTimedelta s.«end»)))

/-! ## Index coercion and entry construction in `SRT.parse` -/

/-- Python `int()` on a string shaped like `-?[0-9]+` (the only shapes
that reach it via `RGX_INDEX` after the dot split). -/
def pyStrToInt (l : List Char) : Int :=
  match l with
  | '-' :: rest => -((natOfDigits rest : Nat) : Int)
  | _ => ((natOfDigits l : Nat) : Int)

/-- The `int(raw_index)` / `int(raw_index.split(".")[0])` coercion of
`SRT.parse` on a captured index string (shape `-?[0-9]+\.?[0-9]*`): the
integer value of the part before the first dot. -/
def pyIntDotPrefix (s : String) : Int :=
  pyStrToInt (s.data.takeWhile (fun c => c ≠ '.'))

/-- The index handling of `SRT.parse`: `TypeError` on `None` is caught
and the index stays absent; otherwise the string is coerced. -/
def coerceIndex : Option String → Option Int
  | none => none
  | some s => some (pyIntDotPrefix s)

/-- `content.replace("\r\n", "\n")`: left-to-right non-overlapping
replacement. -/
def replCRLF : List Char → List Char
  | '\r' :: '\n' :: rest => '\n' :: replCRLF rest
  | c :: rest => c :: replCRLF rest
  | [] => []

/-- Construction of one `Subtitle` from the five capture groups of a
`SRT_REGEX` match, as done in the loop body of `SRT.parse`. -/
def parseEntry (rawIndex : Option String) (rawStart rawEnd proprietary content : String) :
    Except String Subtitle :=
  match srtTimestampToTimedelta rawStart with
  | .error e => .error e
  | .ok st =>
    match srtTimestampToTimedelta rawEnd with
    | .error e => .error e
    | .ok en =>
      .ok { index := coerceIndex rawIndex, start := st, «end» := en,
            content := String.mk (replCRLF content.data), proprietary := proprietary }

/-! ## Contiguity checking in `SRT.parse` -/

/-- Python `str.isspace()`: non-empty and all whitespace. -/
def pyIsSpaceStr (l : List Char) : Bool := !l.isEmpty && l.all pyIsSpace

/-- `SRT._check_contiguity`: no gap is allowed between the expected and
actual positions, except that a gap starting at offset 0 may be pure
whitespace or exactly a byte-order marker; any other gap raises with the
unmatched substring. -/
def checkContiguity (srt : List Char) (expected actual : Nat) : Except (List Char) Unit :=
  if expected = actual then .ok ()
  else
    let unmatched := (srt.drop expected).take (actual - expected)
    if expected = 0 ∧ (pyIsSpaceStr unmatched = true ∨ unmatched = ['\uFEFF']) then .ok ()
    else .error unmatched

/-- The gap-checking walk of `SRT.parse` over the spans (start, end
offsets) of the `SRT_REGEX` matches found in the buffer: a contiguity
check before every match and a final one against the end of the
buffer. -/
def parseWalk (srt : List Char) : Nat → List (Nat × Nat) → Except (List Char) Unit
  | expected, [] => checkContiguity srt expected srt.length
  | expected, (s, e) :: rest =>
    match checkContiguity srt expected s with
    | .error u => .error u
    | .ok _ => parseWalk srt e rest

/-- Well-formedness of a span list as produced by `re.finditer`:
in-bounds, non-empty (every `SRT_REGEX` match contains a timestamp) and
non-overlapping left to right. -/
def chainOk : Nat → List (Nat × Nat) → Nat → Bool
  | lo, [], len => decide (lo ≤ len)
  | lo, (s, e) :: rest, len => decide (lo ≤ s) && decide (s < e) && chainOk e rest len

/-- Modelled from the spec: an acceptable gap before the very first
match — empty, pure whitespace, or exactly a byte-order marker. -/
def leadGapOk (g : List Char) : Bool :=
  g.isEmpty || pyIsSpaceStr g || decide (g = ['\uFEFF'])

/-- Modelled from the spec: all gaps after the first are empty (between
consecutive matches and from the last match to the end of buffer). -/
def gapsClosed (srt : List Char) : Nat → List (Nat × Nat) → Bool
  | prev, [] => decide (prev = srt.length)
  | prev, (s, e) :: rest => decide (prev = s) && gapsClosed srt e rest

/-- Modelled from the spec (§4.2 contiguity rule): the gap before the
first match may be whitespace or a byte-order marker, every other gap
must be empty. -/
def specContiguityOk (srt : List Char) (spans : List (Nat × Nat)) : Bool :=
  match spans with
  | [] => leadGapOk srt
  | (s, e) :: rest => leadGapOk (srt.take s) && gapsClosed srt e rest

/-- Modelled from the spec: the sort key `(start, end, original_index)`
claimed by §4.3 (with the integer value of the declared index). -/
def specSortKeyLt (a b : Subtitle) : Bool :=
  decide (a.start < b.start) || (decide (a.start = b.start) &&
    (decide (a.«end» < b.«end») || (decide (a.«end» = b.«end») &&
      decide (idxVal a.index < idxVal b.index))))

/-! ## Lemmas: decimal digits -/

theorem tsDelim_not_digit {c : Char} (h : isTsDelim c = true) : isDigitC c = false := by
  simp only [isTsDelim, Bool.or_eq_true, decide_eq_true_eq] at h
  rcases h with ((((((h | h) | h) | h) | h) | h) | h) <;> subst h <;> decide

theorem tsDelim_not_newline {c : Char} (h : isTsDelim c = true) : c ≠ '\n' := by
  simp only [isTsDelim, Bool.or_eq_true, decide_eq_true_eq] at h
  rcases h with ((((((h | h) | h) | h) | h) | h) | h) <;> subst h <;> decide

theorem digitVal_digitChar {n : Nat} (h : n < 10) : digitVal (digitChar n) = n := by
  interval_cases n <;> decide

theorem isDigitC_digitChar {n : Nat} (h : n < 10) : isDigitC (digitChar n) = true := by
  interval_cases n <;> decide

theorem natDigits_ne_nil (n : Nat) : natDigits n ≠ [] := by
  unfold natDigits
  split
  · simp
  · simp

theorem natDigits_all_digits (n : Nat) : ∀ c ∈ natDigits n, isDigitC c = true := by
  induction n using Nat.strong_induction_on with
  | _ n ih =>
    unfold natDigits
    split
    · next h =>
      intro c hc
      simp only [List.mem_singleton] at hc
      subst hc
      exact isDigitC_digitChar h
    · next h =>
      intro c hc
      rw [List.mem_append] at hc
      rcases hc with hc | hc
      · exact ih (n / 10) (Nat.div_lt_self (by omega) (by omega)) c hc
      · simp only [List.mem_singleton] at hc
        subst hc
        exact isDigitC_digitChar (Nat.mod_lt _ (by omega))

theorem natOfDigitsAux_nil (acc : Nat) : natOfDigitsAux acc [] = acc := rfl

theorem natOfDigitsAux_cons (acc : Nat) (c : Char) (rest : List Char) :
    natOfDigitsAux acc (c :: rest) = natOfDigitsAux (acc * 10 + digitVal c) rest := rfl

theorem natOfDigitsAux_append (acc : Nat) (l₁ l₂ : List Char) :
    natOfDigitsAux acc (l₁ ++ l₂) = natOfDigitsAux (natOfDigitsAux acc l₁) l₂ := by
  induction l₁ generalizing acc with
  | nil => rfl
  | cons c rest ih =>
    rw [List.cons_append, natOfDigitsAux_cons, natOfDigitsAux_cons, ih]

theorem natDigits_of_lt {n : Nat} (h : n < 10) : natDigits n = [digitChar n] := by
  rw [natDigits]
  simp [h]

theorem natDigits_of_ge {n : Nat} (h : ¬ n < 10) :
    natDigits n = natDigits (n / 10) ++ [digitChar (n % 10)] := by
  conv_lhs => rw [natDigits]
  simp [h]

theorem natOfDigitsAux_natDigits (n : Nat) :
    ∀ acc, natOfDigitsAux acc (natDigits n) = acc * 10 ^ (natDigits n).length + n := by
  induction n using Nat.strong_induction_on with
  | _ n ih =>
    intro acc
    by_cases h : n < 10
    · rw [natDigits_of_lt h]
      rw [natOfDigitsAux_cons, natOfDigitsAux_nil, digitVal_digitChar h]
      simp
    · rw [natDigits_of_ge h, natOfDigitsAux_append]
      rw [ih (n / 10) (Nat.div_lt_self (by omega) (by omega))]
      rw [natOfDigitsAux_cons, natOfDigitsAux_nil,
        digitVal_digitChar (Nat.mod_lt n (by omega) : n % 10 < 10)]
      simp only [List.length_append, List.length_singleton]
      rw [pow_succ]
      have hnn : n = n / 10 * 10 + n % 10 := by omega
      ring_nf
      omega

theorem natOfDigits_natDigits (n : Nat) : natOfDigits (natDigits n) = n := by
  simp [natOfDigits, natOfDigitsAux_natDigits n 0]

theorem natOfDigitsAux_zeros (k : Nat) :
    ∀ l, natOfDigitsAux 0 (List.replicate k '0' ++ l) = natOfDigitsAux 0 l := by
  induction k with
  | zero => intro l; rfl
  | succ k ih =>
    intro l
    rw [List.replicate_succ, List.cons_append, natOfDigitsAux_cons]
    have h0 : 0 * 10 + digitVal '0' = 0 := by decide
    rw [h0]
    exact ih l

theorem natOfDigits_natPad (w : Nat) (l : List Char) :
    natOfDigits (natPad w l) = natOfDigits l := by
  simp [natPad, natOfDigits, natOfDigitsAux_zeros]

theorem natPad_all_digits (w : Nat) (l : List Char) (h : ∀ c ∈ l, isDigitC c = true) :
    ∀ c ∈ natPad w l, isDigitC c = true := by
  intro c hc
  rw [natPad, List.mem_append] at hc
  rcases hc with hc | hc
  · rw [List.mem_replicate] at hc
    rw [hc.2]; decide
  · exact h c hc

theorem natPad_ne_nil_of_ne_nil (w : Nat) (l : List Char) (h : l ≠ []) :
    natPad w l ≠ [] := by
  simp [natPad]
  intro _
  exact h

/-! ## Lemmas: the timestamp regex scan -/

theorem takeWhile_digits_append (xs ys : List Char)
    (hxs : ∀ c ∈ xs, isDigitC c = true)
    (hys : ∀ y rest, ys = y :: rest → isDigitC y = false) :
    (xs ++ ys).takeWhile isDigitC = xs ∧ (xs ++ ys).dropWhile isDigitC = ys := by
  induction xs with
  | nil =>
    simp only [List.nil_append]
    cases ys with
    | nil => simp
    | cons y rest =>
      have hy := hys y rest rfl
      simp [List.takeWhile_cons, List.dropWhile_cons, hy]
  | cons x xs ih =>
    have hx : isDigitC x = true := hxs x (by simp)
    have ih' := ih (fun c hc => hxs c (by simp [hc]))
    simp [List.takeWhile_cons, List.dropWhile_cons, hx, ih'.1, ih'.2]

theorem tsMatch_exact (hh mm ss : List Char) (d1 d2 : Char)
    (hd : ∀ c ∈ hh, isDigitC c = true) (hm : ∀ c ∈ mm, isDigitC c = true)
    (hs : ∀ c ∈ ss, isDigitC c = true)
    (hne1 : hh ≠ []) (hne2 : mm ≠ []) (hne3 : ss ≠ [])
    (hdel1 : isTsDelim d1 = true) (hdel2 : isTsDelim d2 = true) :
    tsMatch (hh ++ (d1 :: (mm ++ (d2 :: ss)))) = some (hh, mm, ss, []) := by
  have step1 := takeWhile_digits_append hh (d1 :: (mm ++ (d2 :: ss))) hd
    (by intro y rest h; cases h; rw [tsDelim_not_digit hdel1])
  have step2 := takeWhile_digits_append mm (d2 :: ss) hm
    (by intro y rest h; cases h; rw [tsDelim_not_digit hdel2])
  have step3 : ss.takeWhile isDigitC = ss ∧ ss.dropWhile isDigitC = [] := by
    have := takeWhile_digits_append ss [] hs (by intro y rest h; cases h)
    simpa using this
  rw [tsMatch]
  simp only [step1.1, step1.2, step2.1, step2.2, step3.1, step3.2]
  simp [List.isEmpty_iff, hne1, hne2, hne3, hdel1, hdel2]

theorem tsMatch_exact_frac (hh mm ss ff : List Char) (d1 d2 d3 : Char)
    (hd : ∀ c ∈ hh, isDigitC c = true) (hm : ∀ c ∈ mm, isDigitC c = true)
    (hs : ∀ c ∈ ss, isDigitC c = true) (hf : ∀ c ∈ ff, isDigitC c = true)
    (hne1 : hh ≠ []) (hne2 : mm ≠ []) (hne3 : ss ≠ [])
    (hdel1 : isTsDelim d1 = true) (hdel2 : isTsDelim d2 = true)
    (hdel3 : isTsDelim d3 = true) :
    tsMatch (hh ++ (d1 :: (mm ++ (d2 :: (ss ++ (d3 :: ff)))))) = some (hh, mm, ss, ff) := by
  have step1 := takeWhile_digits_append hh (d1 :: (mm ++ (d2 :: (ss ++ (d3 :: ff))))) hd
    (by intro y rest h; cases h; rw [tsDelim_not_digit hdel1])
  have step2 := takeWhile_digits_append mm (d2 :: (ss ++ (d3 :: ff))) hm
    (by intro y rest h; cases h; rw [tsDelim_not_digit hdel2])
  have step3 := takeWhile_digits_append ss (d3 :: ff) hs
    (by intro y rest h; cases h; rw [tsDelim_not_digit hdel3])
  have step4 : ff.takeWhile isDigitC = ff ∧ ff.dropWhile isDigitC = [] := by
    have := takeWhile_digits_append ff [] hf (by intro y rest h; cases h)
    simpa using this
  rw [tsMatch]
  simp only [step1.1, step1.2, step2.1, step2.2, step3.1, step3.2, step4.1, step4.2]
  simp [List.isEmpty_iff, hne1, hne2, hne3, hdel1, hdel2, hdel3, tsAtEnd]

theorem pyFmtD_ofNat (w : Nat) (k : Nat) : pyFmtD w (k : Int) = natPad w (natDigits k) := by
  rw [pyFmtD, if_neg (by omega)]
  have : ((k : Int)).toNat = k := by omega
  rw [this]

/-- Normal form of `timedelta_to_srt_timestamp` on a non-negative
microsecond count: the four rendered fields are the total hours and the
reduced minute/second/millisecond components. -/
theorem natFormat (n : Nat) :
    timedeltaToSrtTimestamp (n : Int)
      = String.mk (natPad 2 (natDigits (n / 3600000000))
          ++ (':' :: (natPad 2 (natDigits (n / 60000000 % 60))
          ++ (':' :: (natPad 2 (natDigits (n / 1000000 % 60))
          ++ (',' :: natPad 3 (natDigits (n / 1000 % 1000)))))))) := by
  have h1 : ((n : Int) % usPerDay) / 1000000 / 3600 + (n : Int) / usPerDay * 24
      = ((n / 3600000000 : Nat) : Int) := by
    rw [usPerDay]; omega
  have h2 : ((n : Int) % usPerDay) / 1000000 % 3600 / 60
      = ((n / 60000000 % 60 : Nat) : Int) := by
    rw [usPerDay]; omega
  have h3 : ((n : Int) % usPerDay) / 1000000 % 3600 % 60
      = ((n / 1000000 % 60 : Nat) : Int) := by
    rw [usPerDay]; omega
  have h4 : ((n : Int) % usPerDay) % 1000000 / 1000
      = ((n / 1000 % 1000 : Nat) : Int) := by
    rw [usPerDay]; omega
  rw [timedeltaToSrtTimestamp, tdRem, tdDays]
  rw [h1, h2, h3, h4, pyFmtD_ofNat, pyFmtD_ofNat, pyFmtD_ofNat, pyFmtD_ofNat]
  simp [List.cons_append, List.append_assoc]

/-- `tsMatch` rejects any string starting with a character outside
`[0-9]` (the first `[0-9]+` field must match at the start). -/
theorem tsMatch_nondigit_head (c : Char) (rest : List Char) (hc : isDigitC c = false) :
    tsMatch (c :: rest) = none := by
  rw [tsMatch]
  simp [List.takeWhile_cons, List.dropWhile_cons, hc]

/-- Parsing the canonical rendering of a whole-millisecond non-negative
duration returns exactly that duration. -/
theorem parse_format_nat (k : Nat) :
    srtTimestampToTimedelta (timedeltaToSrtTimestamp ((1000 * k : Nat) : Int))
      = .ok ((1000 * k : Nat) : Int) := by
  rw [natFormat]
  rw [srtTimestampToTimedelta]
  have hmatch := tsMatch_exact_frac
    (natPad 2 (natDigits (1000 * k / 3600000000)))
    (natPad 2 (natDigits (1000 * k / 60000000 % 60)))
    (natPad 2 (natDigits (1000 * k / 1000000 % 60)))
    (natPad 3 (natDigits (1000 * k / 1000 % 1000)))
    ':' ':' ','
    (natPad_all_digits _ _ (natDigits_all_digits _))
    (natPad_all_digits _ _ (natDigits_all_digits _))
    (natPad_all_digits _ _ (natDigits_all_digits _))
    (natPad_all_digits _ _ (natDigits_all_digits _))
    (natPad_ne_nil_of_ne_nil _ _ (natDigits_ne_nil _))
    (natPad_ne_nil_of_ne_nil _ _ (natDigits_ne_nil _))
    (natPad_ne_nil_of_ne_nil _ _ (natDigits_ne_nil _))
    (by decide) (by decide) (by decide)
  rw [show (String.mk (natPad 2 (natDigits (1000 * k / 3600000000))
        ++ (':' :: (natPad 2 (natDigits (1000 * k / 60000000 % 60))
        ++ (':' :: (natPad 2 (natDigits (1000 * k / 1000000 % 60))
        ++ (',' :: natPad 3 (natDigits (1000 * k / 1000 % 1000))))))))).data
      = natPad 2 (natDigits (1000 * k / 3600000000))
        ++ (':' :: (natPad 2 (natDigits (1000 * k / 60000000 % 60))
        ++ (':' :: (natPad 2 (natDigits (1000 * k / 1000000 % 60))
        ++ (',' :: natPad 3 (natDigits (1000 * k / 1000 % 1000))))))) from rfl]
  rw [hmatch]
  show Except.ok (usOf (natOfDigits (natPad 2 (natDigits (1000 * k / 3600000000))))
      (natOfDigits (natPad 2 (natDigits (1000 * k / 60000000 % 60))))
      (natOfDigits (natPad 2 (natDigits (1000 * k / 1000000 % 60))))
      (natOfDigits (natPad 3 (natDigits (1000 * k / 1000 % 1000)))))
    = Except.ok ((1000 * k : Nat) : Int)
  rw [natOfDigits_natPad, natOfDigits_natPad, natOfDigits_natPad, natOfDigits_natPad,
    natOfDigits_natDigits, natOfDigits_natDigits, natOfDigits_natDigits, natOfDigits_natDigits]
  rw [usOf]
  congr 1
  omega

/-! ## Claim C3 -/

/-- C3 counterexample: the claim says a 2-digit fraction `.50` denotes
500 milliseconds; the code parses `"0:00:00.50"` to 50 milliseconds
(50000 microseconds), because `int("50")` is passed unscaled to
`timedelta(milliseconds=...)`. -/
theorem c3_counterexample :
    srtTimestampToTimedelta "0:00:00.50" = .ok 50000 ∧ (50000 : Int) ≠ 500000 :=
  ⟨rfl, by decide⟩

/-- C3 (amended): the parser accepts `H:MM:SS` with any delimiters from
the fixed class, fields of any positive digit length and an optional
variable-length fraction; a missing fraction defaults to 0, and a
present fraction is read as a plain integer count of milliseconds
(`.50` denotes 50 ms, not 500 ms). -/
theorem c3_parse_grammar (hh mm ss ff : List Char) (d1 d2 d3 : Char)
    (hd : ∀ c ∈ hh, isDigitC c = true) (hm : ∀ c ∈ mm, isDigitC c = true)
    (hs : ∀ c ∈ ss, isDigitC c = true) (hf : ∀ c ∈ ff, isDigitC c = true)
    (hne1 : hh ≠ []) (hne2 : mm ≠ []) (hne3 : ss ≠ [])
    (hdel1 : isTsDelim d1 = true) (hdel2 : isTsDelim d2 = true)
    (hdel3 : isTsDelim d3 = true) :
    srtTimestampToTimedelta (String.mk (hh ++ (d1 :: (mm ++ (d2 :: ss)))))
      = .ok (usOf (natOfDigits hh) (natOfDigits mm) (natOfDigits ss) 0)
    ∧ srtTimestampToTimedelta (String.mk (hh ++ (d1 :: (mm ++ (d2 :: (ss ++ (d3 :: ff)))))))
      = .ok (usOf (natOfDigits hh) (natOfDigits mm) (natOfDigits ss) (natOfDigits ff)) := by
  constructor
  · rw [srtTimestampToTimedelta]
    rw [show (String.mk (hh ++ (d1 :: (mm ++ (d2 :: ss))))).data
        = hh ++ (d1 :: (mm ++ (d2 :: ss))) from rfl]
    rw [tsMatch_exact hh mm ss d1 d2 hd hm hs hne1 hne2 hne3 hdel1 hdel2]
    rfl
  · rw [srtTimestampToTimedelta]
    rw [show (String.mk (hh ++ (d1 :: (mm ++ (d2 :: (ss ++ (d3 :: ff))))))).data
        = hh ++ (d1 :: (mm ++ (d2 :: (ss ++ (d3 :: ff))))) from rfl]
    rw [tsMatch_exact_frac hh mm ss ff d1 d2 d3 hd hm hs hf hne1 hne2 hne3 hdel1 hdel2 hdel3]

/-- C3 witness: the amended statement applied to `"0:00:00.50"`. -/
theorem c3_witness :
    srtTimestampToTimedelta
        (String.mk (['0'] ++ (':' :: (['0', '0'] ++ (':' :: (['0', '0'] ++ ('.' :: ['5', '0'])))))))
      = .ok (usOf (natOfDigits ['0']) (natOfDigits ['0', '0']) (natOfDigits ['0', '0'])
          (natOfDigits ['5', '0'])) :=
  (c3_parse_grammar ['0'] ['0', '0'] ['0', '0'] ['5', '0'] ':' ':' '.'
    (by decide) (by decide) (by decide) (by decide)
    (by decide) (by decide) (by decide)
    (by decide) (by decide) (by decide)).2

/-! ## Claim C4 -/

/-- C4: round-trip normalisation.  For every non-negative whole
millisecond duration `1000 * k` microseconds,
`format (parse (format d)) = format d`; and for every timestamp string
the code accepts, the parsed value round-trips the same way (parse
outputs are always whole non-negative millisecond counts). -/
theorem c4_round_trip :
    (∀ k : Nat, (srtTimestampToTimedelta (timedeltaToSrtTimestamp ((1000 * k : Nat) : Int))).map
        timedeltaToSrtTimestamp = .ok (timedeltaToSrtTimestamp ((1000 * k : Nat) : Int)))
    ∧ (∀ (t : String) (v : Int), srtTimestampToTimedelta t = .ok v →
        (srtTimestampToTimedelta (timedeltaToSrtTimestamp v)).map timedeltaToSrtTimestamp
          = .ok (timedeltaToSrtTimestamp v)) := by
  constructor
  · intro k
    rw [parse_format_nat]
    rfl
  · intro t v hv
    obtain ⟨m, rfl⟩ : ∃ m : Nat, v = ((1000 * m : Nat) : Int) := by
      cases htm : tsMatch t.data with
      | none =>
        rw [srtTimestampToTimedelta, htm] at hv
        cases hv
      | some g =>
        obtain ⟨hh, mm, ss, ff⟩ := g
        rw [srtTimestampToTimedelta, htm] at hv
        have hv' : usOf (natOfDigits hh) (natOfDigits mm) (natOfDigits ss) (natOfDigits ff)
            = v := by
          injection hv
        refine ⟨(natOfDigits hh * 3600 + natOfDigits mm * 60 + natOfDigits ss) * 1000
          + natOfDigits ff, ?_⟩
        rw [← hv', usOf]
        push_cast
        ring
    rw [parse_format_nat]
    rfl

/-- C4 witness: round trip at the parsed value of `"00:00:01,500"`. -/
theorem c4_witness :
    (srtTimestampToTimedelta (timedeltaToSrtTimestamp 1500000)).map timedeltaToSrtTimestamp
      = .ok (timedeltaToSrtTimestamp 1500000) :=
  c4_round_trip.2 "00:00:01,500" 1500000 rfl

/-! ## Claim C8 -/

/-- C8: for every non-negative duration (decomposed into total hours and
reduced minute/second/millisecond fields), the formatter renders
`HH:MM:SS,mmm` with the hour/minute/second fields zero-padded to two
digits and the millisecond field to three; the hour field is the total
hour count, not wrapped at 24. -/
theorem c8_format_fields (h m s ms : Nat) (hm : m < 60) (hs : s < 60) (hms : ms < 1000) :
    timedeltaToSrtTimestamp (usOf h m s ms)
      = String.mk (natPad 2 (natDigits h)
          ++ (':' :: (natPad 2 (natDigits m)
          ++ (':' :: (natPad 2 (natDigits s)
          ++ (',' :: natPad 3 (natDigits ms))))))) := by
  have husof : usOf h m s ms = ((((h * 3600 + m * 60 + s) * 1000 + ms) * 1000 : Nat) : Int) := by
    rw [usOf]
    push_cast
    ring
  rw [husof, natFormat]
  have e1 : ((h * 3600 + m * 60 + s) * 1000 + ms) * 1000 / 3600000000 = h := by omega
  have e2 : ((h * 3600 + m * 60 + s) * 1000 + ms) * 1000 / 60000000 % 60 = m := by omega
  have e3 : ((h * 3600 + m * 60 + s) * 1000 + ms) * 1000 / 1000000 % 60 = s := by omega
  have e4 : ((h * 3600 + m * 60 + s) * 1000 + ms) * 1000 / 1000 % 1000 = ms := by omega
  rw [e1, e2, e3, e4]

/-- C8 witness: a 25-hour duration renders with hour field `25`,
unwrapped. -/
theorem c8_witness : timedeltaToSrtTimestamp (usOf 25 0 0 0) = "25:00:00,000" := by
  rw [c8_format_fields 25 0 0 0 (by decide) (by decide) (by decide)]
  rw [natDigits_of_ge (show ¬ (25 : Nat) < 10 by decide)]
  rw [show (25 : Nat) / 10 = 2 from rfl, show (25 : Nat) % 10 = 5 from rfl]
  rw [natDigits_of_lt (show (2 : Nat) < 10 by decide)]
  rw [natDigits_of_lt (show (0 : Nat) < 10 by decide)]
  decide

/-! ## Claim C10 -/

/-- C10: formatting any strictly negative duration yields a string whose
first character is the sign of the negative hours field, and the parser
rejects every such string (the round trip only holds for non-negative
durations). -/
theorem c10_negative_rejected (d : Int) (hd : d < 0) :
    (timedeltaToSrtTimestamp d).data.head? = some '-'
    ∧ ∃ e, srtTimestampToTimedelta (timedeltaToSrtTimestamp d) = .error e := by
  have hhours : tdRem d / 1000000 / 3600 + tdDays d * 24 < 0 := by
    rw [tdRem, tdDays, usPerDay]
    omega
  have hdata : (timedeltaToSrtTimestamp d).data
      = pyFmtD 2 (tdRem d / 1000000 / 3600 + tdDays d * 24)
        ++ ':' :: pyFmtD 2 (tdRem d / 1000000 % 3600 / 60)
        ++ ':' :: pyFmtD 2 (tdRem d / 1000000 % 3600 % 60)
        ++ ',' :: pyFmtD 3 (tdRem d % 1000000 / 1000) := rfl
  have hneg : pyFmtD 2 (tdRem d / 1000000 / 3600 + tdDays d * 24)
      = '-' :: natPad 1 (natDigits (-(tdRem d / 1000000 / 3600 + tdDays d * 24)).toNat) := by
    rw [pyFmtD, if_pos hhours]
  have hcons : (timedeltaToSrtTimestamp d).data
      = '-' :: (natPad 1 (natDigits (-(tdRem d / 1000000 / 3600 + tdDays d * 24)).toNat)
        ++ ':' :: pyFmtD 2 (tdRem d / 1000000 % 3600 / 60)
        ++ ':' :: pyFmtD 2 (tdRem d / 1000000 % 3600 % 60)
        ++ ',' :: pyFmtD 3 (tdRem d % 1000000 / 1000)) := by
    rw [hdata, hneg]
    rfl
  constructor
  · rw [hcons]
    rfl
  · refine ⟨"Unparseable timestamp: " ++ timedeltaToSrtTimestamp d, ?_⟩
    rw [srtTimestampToTimedelta, hcons, tsMatch_nondigit_head _ _ (by decide)]

/-- C10 witness: the negative duration −1 microsecond. -/
theorem c10_witness :
    (timedeltaToSrtTimestamp (-1)).data.head? = some '-'
    ∧ ∃ e, srtTimestampToTimedelta (timedeltaToSrtTimestamp (-1)) = .error e :=
  c10_negative_rejected (-1) (by decide)

/-! ## Lemmas: the sort key order and the dataclass comparison -/

theorem keyLt_asymm {p q : Int × Int × Int × Int} (h : keyLt p q) : ¬ keyLt q p := by
  obtain ⟨a, b, c, d⟩ := p
  obtain ⟨a', b', c', d'⟩ := q
  simp only [keyLt] at h ⊢
  omega

theorem keyLt_trans {p q r : Int × Int × Int × Int} (h1 : keyLt p q) (h2 : keyLt q r) :
    keyLt p r := by
  obtain ⟨a, b, c, d⟩ := p
  obtain ⟨a', b', c', d'⟩ := q
  obtain ⟨a'', b'', c'', d''⟩ := r
  simp only [keyLt] at h1 h2 ⊢
  omega

theorem keyLt_total {p q : Int × Int × Int × Int} (h1 : ¬ keyLt p q) (h2 : ¬ keyLt q p) :
    p = q := by
  obtain ⟨a, b, c, d⟩ := p
  obtain ⟨a', b', c', d'⟩ := q
  simp only [keyLt, Prod.mk.injEq] at h1 h2 ⊢
  omega

/-- When the compared pair has equally-present indices the dataclass
comparison succeeds and computes the total key order. -/
theorem pyLtSub_same {a b : Subtitle} (h : a.index.isSome = b.index.isSome) :
    pyLtSub a b = .ok (ltKey a b) := by
  obtain ⟨ia, sa, ea, ca, pa⟩ := a
  obtain ⟨ib, sb, eb, cb, pb⟩ := b
  cases ia with
  | none =>
    cases ib with
    | none =>
      show Except.ok (sLtB ⟨none, sa, ea, ca, pa⟩ ⟨none, sb, eb, cb, pb⟩)
        = Except.ok (ltKey ⟨none, sa, ea, ca, pa⟩ ⟨none, sb, eb, cb, pb⟩)
      congr 1
      rw [Bool.eq_iff_iff]
      simp only [sLtB, ltKey, keyOf, keyLt, idxTag, idxVal, Bool.or_eq_true,
        Bool.and_eq_true, decide_eq_true_eq, true_and]
      omega
    | some jb => simp at h
  | some ja =>
    cases ib with
    | none => simp at h
    | some jb =>
      show Except.ok (if ja = jb then sLtB ⟨some ja, sa, ea, ca, pa⟩ ⟨some jb, sb, eb, cb, pb⟩
          else decide (ja < jb))
        = Except.ok (ltKey ⟨some ja, sa, ea, ca, pa⟩ ⟨some jb, sb, eb, cb, pb⟩)
      congr 1
      by_cases hij : ja = jb
      · subst hij
        rw [if_pos rfl, Bool.eq_iff_iff]
        simp only [sLtB, ltKey, keyOf, keyLt, idxTag, idxVal, Bool.or_eq_true,
          Bool.and_eq_true, decide_eq_true_eq, true_and]
        omega
      · rw [if_neg hij, Bool.eq_iff_iff]
        simp only [ltKey, keyOf, keyLt, idxTag, idxVal, decide_eq_true_eq, true_and]
        omega

/-- A comparison between an indexed and an index-less subtitle raises
`TypeError`. -/
theorem pyLtSub_diff {a b : Subtitle} (h : a.index.isSome ≠ b.index.isSome) :
    pyLtSub a b = .error () := by
  obtain ⟨ia, sa, ea, ca, pa⟩ := a
  obtain ⟨ib, sb, eb, cb, pb⟩ := b
  cases ia <;> cases ib <;> first | rfl | simp at h

theorem insertSub_nil (x : Subtitle) : insertSub x [] = [x] := rfl

theorem insertSub_cons (x y : Subtitle) (ys : List Subtitle) :
    insertSub x (y :: ys) = if ltKey x y then x :: y :: ys else y :: insertSub x ys := rfl

theorem sortLoop_nil (acc : List Subtitle) : sortLoop acc [] = acc := rfl

theorem sortLoop_cons (acc : List Subtitle) (x : Subtitle) (xs : List Subtitle) :
    sortLoop acc (x :: xs) = sortLoop (insertSub x acc) xs := rfl

theorem pyInsert_nil (x : Subtitle) : pyInsert x [] = .ok [x] := rfl

theorem pyInsert_cons (x y : Subtitle) (ys : List Subtitle) :
    pyInsert x (y :: ys) =
      match pyLtSub x y with
      | .error e => .error e
      | .ok true => .ok (x :: y :: ys)
      | .ok false => (pyInsert x ys).map (fun l => y :: l) := rfl

theorem pySortLoop_nil (acc : List Subtitle) : pySortLoop acc [] = .ok acc := rfl

theorem pySortLoop_cons (acc : List Subtitle) (x : Subtitle) (xs : List Subtitle) :
    pySortLoop acc (x :: xs) =
      match pyInsert x acc with
      | .error e => .error e
      | .ok acc2 => pySortLoop acc2 xs := rfl

theorem mem_insertSub {x a : Subtitle} {l : List Subtitle} :
    a ∈ insertSub x l ↔ a = x ∨ a ∈ l := by
  induction l with
  | nil => simp [insertSub_nil]
  | cons y ys ih =>
    rw [insertSub_cons]
    by_cases hxy : ltKey x y
    · rw [if_pos hxy]
      simp [List.mem_cons]
    · rw [if_neg hxy]
      simp [List.mem_cons, ih]
      tauto

theorem insertSub_ne_nil (x : Subtitle) (l : List Subtitle) : insertSub x l ≠ [] := by
  cases l with
  | nil => simp [insertSub_nil]
  | cons y ys =>
    rw [insertSub_cons]
    by_cases hxy : ltKey x y
    · rw [if_pos hxy]; simp
    · rw [if_neg hxy]; simp

/-- Inserting among subtitles of the same index kind never raises and
agrees with the pure insertion. -/
theorem pyInsert_ok {x : Subtitle} {l : List Subtitle}
    (h : ∀ y ∈ l, y.index.isSome = x.index.isSome) :
    pyInsert x l = .ok (insertSub x l) := by
  induction l with
  | nil => rfl
  | cons y ys ih =>
    have hy : x.index.isSome = y.index.isSome := (h y (by simp)).symm
    rw [pyInsert_cons, pyLtSub_same hy]
    cases hxy : ltKey x y with
    | true =>
      show Except.ok (x :: y :: ys) = .ok (insertSub x (y :: ys))
      rw [insertSub_cons, if_pos hxy]
    | false =>
      show (pyInsert x ys).map (fun l => y :: l) = .ok (insertSub x (y :: ys))
      rw [ih (fun z hz => h z (by simp [hz])), insertSub_cons, if_neg (by simp [hxy])]
      rfl

/-- Inserting a subtitle into a non-empty run of the other index kind
raises immediately (the head comparison is the mixed one). -/
theorem pyInsert_err {x y : Subtitle} {ys : List Subtitle}
    (h : x.index.isSome ≠ y.index.isSome) :
    pyInsert x (y :: ys) = .error () := by
  rw [pyInsert_cons, pyLtSub_diff h]

theorem pySortLoop_ok {k : Bool} :
    ∀ (l acc : List Subtitle), (∀ y ∈ acc, y.index.isSome = k) →
    (∀ y ∈ l, y.index.isSome = k) → pySortLoop acc l = .ok (sortLoop acc l) := by
  intro l
  induction l with
  | nil => intro acc _ _; rfl
  | cons x xs ih =>
    intro acc hacc hl
    have hx : x.index.isSome = k := hl x (by simp)
    rw [pySortLoop_cons, pyInsert_ok (fun y hy => (hacc y hy).trans hx.symm)]
    show pySortLoop (insertSub x acc) xs = .ok (sortLoop acc (x :: xs))
    rw [sortLoop_cons]
    refine ih (insertSub x acc) ?_ (fun y hy => hl y (by simp [hy]))
    intro y hy
    rcases mem_insertSub.1 hy with h | h
    · subst h; exact hx
    · exact hacc y h

theorem pySortLoop_err {k : Bool} :
    ∀ (l acc : List Subtitle), acc ≠ [] → (∀ y ∈ acc, y.index.isSome = k) →
    (∃ x ∈ l, x.index.isSome ≠ k) → pySortLoop acc l = .error () := by
  intro l
  induction l with
  | nil =>
    intro acc _ _ hex
    simp at hex
  | cons x xs ih =>
    intro acc hne hacc hex
    by_cases hx : x.index.isSome = k
    · rw [pySortLoop_cons, pyInsert_ok (fun y hy => (hacc y hy).trans hx.symm)]
      show pySortLoop (insertSub x acc) xs = .error ()
      refine ih (insertSub x acc) (insertSub_ne_nil x acc) ?_ ?_
      · intro y hy
        rcases mem_insertSub.1 hy with h | h
        · subst h; exact hx
        · exact hacc y h
      · obtain ⟨z, hz, hzk⟩ := hex
        rcases List.mem_cons.1 hz with h | h
        · subst h; exact absurd hx hzk
        · exact ⟨z, h, hzk⟩
    · obtain ⟨a, as, rfl⟩ : ∃ a as, acc = a :: as := by
        cases acc with
        | nil => exact absurd rfl hne
        | cons a as => exact ⟨a, as, rfl⟩
      rw [pySortLoop_cons, pyInsert_err (fun he => hx (he.trans (hacc a (by simp))))]

/-- `sorted` raises on any list mixing indexed and index-less
subtitles. -/
theorem pySorted_mixed {l : List Subtitle}
    (h1 : ∃ a ∈ l, a.index = none) (h2 : ∃ b ∈ l, b.index ≠ none) :
    pySorted l = .error () := by
  cases l with
  | nil => simp at h1
  | cons x xs =>
    show pySortLoop [] (x :: xs) = .error ()
    rw [pySortLoop_cons, pyInsert_nil]
    show pySortLoop [x] xs = .error ()
    obtain ⟨a, ha, han⟩ := h1
    obtain ⟨b, hb, hbn⟩ := h2
    have hk : ∃ z ∈ x :: xs, z.index.isSome ≠ x.index.isSome := by
      by_cases hxk : x.index.isSome
      · exact ⟨a, ha, by simp [han, hxk]⟩
      · refine ⟨b, hb, ?_⟩
        simp only [Bool.not_eq_false] at hxk ⊢
        cases hbi : b.index with
        | none => exact absurd hbi hbn
        | some j => simp [hbi, Bool.eq_false_iff, hxk]
    obtain ⟨z, hz, hzk⟩ := hk
    rcases List.mem_cons.1 hz with h | h
    · subst h; exact absurd rfl hzk
    · exact pySortLoop_err xs [x] (by simp) (by simp) ⟨z, h, hzk⟩

/-- `sorted` succeeds on any list whose subtitles all have an index or
all lack one, returning the stable insertion sort by the dataclass
key. -/
theorem pySorted_homog {l : List Subtitle}
    (h : ∀ a ∈ l, ∀ b ∈ l, a.index.isSome = b.index.isSome) :
    pySorted l = .ok (pureSorted l) := by
  cases l with
  | nil => rfl
  | cons x xs =>
    show pySortLoop [] (x :: xs) = .ok (pureSorted (x :: xs))
    rw [pySortLoop_cons, pyInsert_nil]
    show pySortLoop [x] xs = .ok (pureSorted (x :: xs))
    have : pureSorted (x :: xs) = sortLoop [x] xs := rfl
    rw [this]
    exact pySortLoop_ok xs [x] (by simp)
      (fun y hy => h y (by simp [hy]) x (by simp))

/-! ## Lemmas: order and stability of the stable insertion sort -/

theorem insertSub_perm (x : Subtitle) (l : List Subtitle) :
    (insertSub x l).Perm (x :: l) := by
  induction l with
  | nil => rw [insertSub_nil]
  | cons y ys ih =>
    rw [insertSub_cons]
    by_cases hxy : ltKey x y
    · rw [if_pos hxy]
    · rw [if_neg hxy]
      exact (ih.cons y).trans (List.Perm.swap x y ys)

theorem sortLoop_perm : ∀ (l acc : List Subtitle), (sortLoop acc l).Perm (acc ++ l) := by
  intro l
  induction l with
  | nil => intro acc; simp [sortLoop_nil]
  | cons x xs ih =>
    intro acc
    rw [sortLoop_cons]
    calc sortLoop (insertSub x acc) xs
        |>.Perm (insertSub x acc ++ xs) := ih _
      _ |>.Perm ((x :: acc) ++ xs) := (insertSub_perm x acc).append_right xs
      _ |>.Perm (acc ++ x :: xs) := List.perm_middle.symm

theorem pureSorted_perm (l : List Subtitle) : (pureSorted l).Perm l := by
  simpa using sortLoop_perm l []

theorem ltKey_iff {a b : Subtitle} : ltKey a b = true ↔ keyLt (keyOf a) (keyOf b) := by
  rw [ltKey, decide_eq_true_eq]

theorem insertSub_pairwise {x : Subtitle} {l : List Subtitle} (h : l.Pairwise keyLe) :
    (insertSub x l).Pairwise keyLe := by
  induction l with
  | nil =>
    rw [insertSub_nil]
    exact List.pairwise_singleton _ _
  | cons y ys ih =>
    rcases List.pairwise_cons.1 h with ⟨hy, hys⟩
    rw [insertSub_cons]
    by_cases hxy : ltKey x y
    · rw [if_pos hxy]
      have hlt : keyLt (keyOf x) (keyOf y) := ltKey_iff.1 hxy
      refine List.pairwise_cons.2 ⟨?_, h⟩
      intro z hz
      rcases List.mem_cons.1 hz with rfl | hz'
      · exact keyLt_asymm hlt
      · intro habs
        exact (hy z hz') (keyLt_trans habs hlt)
    · rw [if_neg hxy]
      have hnlt : ¬ keyLt (keyOf x) (keyOf y) := fun hk => hxy (ltKey_iff.2 hk)
      refine List.pairwise_cons.2 ⟨?_, ih hys⟩
      intro z hz
      rcases mem_insertSub.1 hz with rfl | hz'
      · exact hnlt
      · exact hy z hz'

theorem sortLoop_pairwise : ∀ (l acc : List Subtitle), acc.Pairwise keyLe →
    (sortLoop acc l).Pairwise keyLe := by
  intro l
  induction l with
  | nil => intro acc h; exact h
  | cons x xs ih =>
    intro acc h
    rw [sortLoop_cons]
    exact ih _ (insertSub_pairwise h)

theorem pureSorted_pairwise (l : List Subtitle) : (pureSorted l).Pairwise keyLe :=
  sortLoop_pairwise l [] (List.Pairwise.nil)

theorem filter_insertSub (x : Subtitle) (l : List Subtitle) (c : Int × Int × Int × Int)
    (h : l.Pairwise keyLe) :
    (insertSub x l).filter (fun a => decide (keyOf a = c))
      = l.filter (fun a => decide (keyOf a = c))
        ++ (if keyOf x = c then [x] else []) := by
  induction l with
  | nil =>
    rw [insertSub_nil]
    by_cases hx : keyOf x = c <;> simp [List.filter_cons, hx]
  | cons y ys ih =>
    rcases List.pairwise_cons.1 h with ⟨hy, hys⟩
    rw [insertSub_cons]
    by_cases hxy : ltKey x y
    · rw [if_pos hxy]
      have hlt : keyLt (keyOf x) (keyOf y) := ltKey_iff.1 hxy
      by_cases hx : keyOf x = c
      · have hnone : ∀ z ∈ y :: ys, ¬ (keyOf z = c) := by
          intro z hz hzc
          rcases List.mem_cons.1 hz with rfl | hz'
          · have : keyLt (keyOf x) (keyOf x) := by
              rw [show keyOf x = keyOf z from hx.trans hzc.symm] at hlt ⊢
              exact hlt
            exact keyLt_asymm this this
          · refine (hy z hz') ?_
            rw [show keyOf z = keyOf x from hzc.trans hx.symm]
            exact hlt
        have hfilnil : (y :: ys).filter (fun a => decide (keyOf a = c)) = [] := by
          rw [List.filter_eq_nil_iff]
          intro z hz
          simpa using hnone z hz
        rw [List.filter_cons, if_pos (by simpa using hx), hfilnil, if_pos hx]
        rfl
      · rw [List.filter_cons, if_neg (by simpa using hx), if_neg hx]
        simp
    · rw [if_neg hxy]
      by_cases hyc : keyOf y = c <;>
        simp [List.filter_cons, hyc, ih hys]

theorem sortLoop_filter (c : Int × Int × Int × Int) :
    ∀ (l acc : List Subtitle), acc.Pairwise keyLe →
    (sortLoop acc l).filter (fun a => decide (keyOf a = c))
      = acc.filter (fun a => decide (keyOf a = c))
        ++ l.filter (fun a => decide (keyOf a = c)) := by
  intro l
  induction l with
  | nil => intro acc _; simp [sortLoop_nil]
  | cons x xs ih =>
    intro acc hacc
    rw [sortLoop_cons, ih _ (insertSub_pairwise hacc), filter_insertSub x acc c hacc]
    rw [List.filter_cons]
    by_cases hx : keyOf x = c
    · rw [if_pos hx, if_pos (show decide (keyOf x = c) = true by simpa using hx)]
      simp
    · rw [if_neg hx, if_neg (show ¬ decide (keyOf x = c) = true by simpa using hx)]
      simp

/-- Stability: sorting preserves the subsequence of entries in any one
key class. -/
theorem pureSorted_filter (l : List Subtitle) (c : Int × Int × Int × Int) :
    (pureSorted l).filter (fun a => decide (keyOf a = c))
      = l.filter (fun a => decide (keyOf a = c)) := by
  simpa using sortLoop_filter c l [] (List.Pairwise.nil)

/-! ## Lemmas: reindexing -/

theorem reindexLoop_nil (n : Int) (k : Nat) : reindexLoop [] n k = [] := rfl

theorem reindexLoop_cons (s : Subtitle) (rest : List Subtitle) (n : Int) (k : Nat) :
    reindexLoop (s :: rest) n k
      = if skipSub s then reindexLoop rest (n + 1) (k + 1)
        else { s with index := some (n - (k : Int)) } :: reindexLoop rest (n + 1) k := rfl

theorem skipSub_update (s : Subtitle) (v : Option Int) :
    skipSub { s with index := v } = skipSub s := rfl

theorem forgetIdx_update (s : Subtitle) (v : Option Int) :
    forgetIdx { s with index := v } = forgetIdx s := rfl

theorem reindexLoop_forget : ∀ (l : List Subtitle) (n : Int) (k : Nat),
    (reindexLoop l n k).map forgetIdx
      = (l.filter (fun s => !skipSub s)).map forgetIdx := by
  intro l
  induction l with
  | nil => intro n k; rfl
  | cons s rest ih =>
    intro n k
    rw [reindexLoop_cons, List.filter_cons]
    by_cases hs : skipSub s
    · rw [if_pos hs, if_neg (by simp [hs]), ih]
    · rw [if_neg hs, if_pos (by simp [hs])]
      rw [List.map_cons, List.map_cons, forgetIdx_update, ih]

theorem reindexLoop_indices : ∀ (l : List Subtitle) (n : Int) (k : Nat),
    (reindexLoop l n k).map Subtitle.index
      = (List.range (l.filter (fun s => !skipSub s)).length).map
          (fun j : Nat => some (n - (k : Int) + (j : Int))) := by
  intro l
  induction l with
  | nil => intro n k; rfl
  | cons s rest ih =>
    intro n k
    rw [reindexLoop_cons, List.filter_cons]
    by_cases hs : skipSub s
    · rw [if_pos hs, if_neg (by simp [hs]), ih]
      have : (fun j : Nat => some (n + 1 - ((k + 1 : Nat) : Int) + (j : Int)))
          = (fun j : Nat => some (n - (k : Int) + (j : Int))) := by
        funext j
        congr 1
        push_cast
        ring
      rw [this]
    · rw [if_neg hs, if_pos (by simp [hs])]
      rw [List.map_cons, ih, List.length_cons, List.range_succ_eq_map, List.map_cons,
        List.map_map]
      have hidx : ({ s with index := some (n - (k : Int)) } : Subtitle).index
          = some (n - (k : Int)) := rfl
      congr 1
      · rw [hidx]
        show _ = some (n - (k : Int) + ((0 : Nat) : Int))
        congr 1
        omega
      · have hfun : (fun j : Nat => some (n + 1 - (k : Int) + (j : Int)))
            = ((fun j : Nat => some (n - (k : Int) + (j : Int))) ∘ Nat.succ) := by
          funext j
          simp only [Function.comp_apply]
          congr 1
          push_cast
          ring
        rw [hfun]

theorem reindexLoop_not_skip : ∀ (l : List Subtitle) (n : Int) (k : Nat),
    ∀ s ∈ reindexLoop l n k, skipSub s = false := by
  intro l
  induction l with
  | nil =>
    intro n k s hs
    rw [reindexLoop_nil] at hs
    cases hs
  | cons t rest ih =>
    intro n k s hs
    rw [reindexLoop_cons] at hs
    by_cases ht : skipSub t
    · rw [if_pos ht] at hs
      exact ih _ _ s hs
    · rw [if_neg ht] at hs
      rcases List.mem_cons.1 hs with rfl | hs'
      · rw [skipSub_update]
        simpa using ht
      · exact ih _ _ s hs'

theorem not_skip_iff {s : Subtitle} :
    skipSub s = false ↔ (pyStrip s.content ≠ "" ∧ 0 ≤ s.start ∧ s.start < s.«end») := by
  rw [skipSub]
  simp only [Bool.or_eq_false_iff, decide_eq_false_iff_not, not_lt, not_le]
  constructor
  · rintro ⟨⟨h1, h2⟩, h3⟩
    exact ⟨h1, h2, h3⟩
  · rintro ⟨h1, h2, h3⟩
    exact ⟨⟨h1, h2⟩, h3⟩

/-! ## Claim C1 -/

/-- C1 counterexample: the claim says `sort_and_reindex` orders by
`(start, end, original_index)` ascending.  On two entries whose declared
indices invert their temporal order, the code returns them sorted by the
dataclass tuple `(index, start, end)`: the entry starting at 5 s comes
before the entry starting at 0 s, so the output is not ascending in the
claimed key. -/
theorem c1_counterexample :
    sortAndReindex [⟨some 2, 0, 1000000, "A", ""⟩, ⟨some 1, 5000000, 6000000, "B", ""⟩] 1
      = .ok [⟨some 1, 5000000, 6000000, "B", ""⟩, ⟨some 2, 0, 1000000, "A", ""⟩]
    ∧ ¬ List.Pairwise (fun a b => specSortKeyLt b a = false)
        [(⟨some 1, 5000000, 6000000, "B", ""⟩ : Subtitle), ⟨some 2, 0, 1000000, "A", ""⟩] := by
  constructor
  · rfl
  · decide

/-- C1 (amended): `sorted` orders entries by the dataclass field tuple
`(index, start, end)` ascending (`index` first — not `(start, end,
index)`), and is stable exactly on classes agreeing on that whole
tuple: whenever it succeeds, the output is a permutation of the input,
pairwise non-decreasing in the key, and preserves the input order
inside every key class. -/
theorem c1_sort_key (l out : List Subtitle) (h : pySorted l = .ok out) :
    out.Perm l
    ∧ out.Pairwise keyLe
    ∧ ∀ c : Int × Int × Int × Int,
        out.filter (fun a => decide (keyOf a = c))
          = l.filter (fun a => decide (keyOf a = c)) := by
  have hhom : ∀ a ∈ l, ∀ b ∈ l, a.index.isSome = b.index.isSome := by
    by_contra hmix
    push_neg at hmix
    obtain ⟨a, ha, b, hb, hab⟩ := hmix
    have herr : pySorted l = .error () := by
      cases hai : a.index with
      | none =>
        refine pySorted_mixed ⟨a, ha, hai⟩ ⟨b, hb, ?_⟩
        intro hbn
        exact hab (by rw [hai, hbn])
      | some j =>
        cases hbi : b.index with
        | none =>
          refine pySorted_mixed ⟨b, hb, hbi⟩ ⟨a, ha, ?_⟩
          intro han
          exact hab (by rw [han, hbi])
        | some j2 =>
          refine absurd ?_ hab
          rw [hai, hbi]
          rfl
    rw [herr] at h
    cases h
  have hok := pySorted_homog hhom
  rw [h] at hok
  injection hok with hok
  subst hok
  exact ⟨pureSorted_perm l, pureSorted_pairwise l, fun c => pureSorted_filter l c⟩

/-- C1 witness: the amended statement at a two-element list sorted by
index first. -/
theorem c1_witness :
    ([(⟨some 1, 0, 1000000, "y", ""⟩ : Subtitle), ⟨some 2, 0, 1000000, "x", ""⟩]).Perm
        [⟨some 2, 0, 1000000, "x", ""⟩, ⟨some 1, 0, 1000000, "y", ""⟩]
    ∧ List.Pairwise keyLe
        [(⟨some 1, 0, 1000000, "y", ""⟩ : Subtitle), ⟨some 2, 0, 1000000, "x", ""⟩]
    ∧ ∀ c : Int × Int × Int × Int,
        ([(⟨some 1, 0, 1000000, "y", ""⟩ : Subtitle), ⟨some 2, 0, 1000000, "x", ""⟩]).filter
            (fun a => decide (keyOf a = c))
          = ([⟨some 2, 0, 1000000, "x", ""⟩, ⟨some 1, 0, 1000000, "y", ""⟩]).filter
            (fun a => decide (keyOf a = c)) :=
  c1_sort_key [⟨some 2, 0, 1000000, "x", ""⟩, ⟨some 1, 0, 1000000, "y", ""⟩]
    [⟨some 1, 0, 1000000, "y", ""⟩, ⟨some 2, 0, 1000000, "x", ""⟩] rfl

/-! ## Claim C9 -/

/-- C9: an entry parsed without a declared index gets an absent index
(`None`); sorting a list mixing an index-less entry with an indexed one
raises (`None < int` is undefined), while index-homogeneous lists sort
fine — so `sort_and_reindex` is total only under that precondition. -/
theorem c9_optional_index :
    (∀ (rs re p c : String) (sub : Subtitle),
        parseEntry none rs re p c = .ok sub → sub.index = none)
    ∧ (∀ l : List Subtitle, (∃ a ∈ l, a.index = none) → (∃ b ∈ l, b.index ≠ none) →
        pySorted l = .error ())
    ∧ (∀ l : List Subtitle, (∀ a ∈ l, ∀ b ∈ l, a.index.isSome = b.index.isSome) →
        pySorted l = .ok (pureSorted l)) := by
  refine ⟨?_, fun l h1 h2 => pySorted_mixed h1 h2, fun l h => pySorted_homog h⟩
  intro rs re p c sub h
  cases h1 : srtTimestampToTimedelta rs with
  | error e =>
    rw [parseEntry, h1] at h
    cases h
  | ok st =>
    cases h2 : srtTimestampToTimedelta re with
    | error e =>
      rw [parseEntry, h1, h2] at h
      cases h
    | ok en =>
      rw [parseEntry, h1, h2] at h
      injection h with h
      rw [← h]
      rfl

/-- C9 witness: a mixed two-element list makes the sort raise. -/
theorem c9_witness :
    pySorted [⟨none, 0, 1000000, "a", ""⟩, (⟨some 1, 0, 1000000, "b", ""⟩ : Subtitle)]
      = .error () :=
  c9_optional_index.2.1 _
    ⟨⟨none, 0, 1000000, "a", ""⟩, by simp, rfl⟩
    ⟨⟨some 1, 0, 1000000, "b", ""⟩, by simp, by simp⟩

/-! ## Claim C6 -/

/-- C6: with skipping enabled, `sort_and_reindex` drops exactly the
sorted entries with empty trimmed content, negative start, or
`start >= end`; the survivors keep their other fields, their new indices
form the contiguous run `start_index, start_index + 1, ...`, and every
survivor satisfies `0 <= start < end` with non-empty trimmed
content. -/
theorem c6_skip_and_reindex (subs out : List Subtitle) (startIndex : Int)
    (h : sortAndReindex subs startIndex = .ok out) :
    ∃ sorted, pySorted subs = .ok sorted
      ∧ out.map forgetIdx = (sorted.filter (fun s => !skipSub s)).map forgetIdx
      ∧ out.map Subtitle.index
          = (List.range out.length).map (fun j : Nat => some (startIndex + (j : Int)))
      ∧ ∀ s ∈ out, pyStrip s.content ≠ "" ∧ 0 ≤ s.start ∧ s.start < s.«end» := by
  rw [sortAndReindex] at h
  cases hs : pySorted subs with
  | error e =>
    rw [hs] at h
    cases h
  | ok sorted =>
    rw [hs] at h
    injection h with h
    subst h
    refine ⟨sorted, rfl, reindexLoop_forget sorted startIndex 0, ?_, ?_⟩
    · rw [reindexLoop_indices]
      have hlen : (reindexLoop sorted startIndex 0).length
          = (sorted.filter (fun s => !skipSub s)).length := by
        have := congrArg List.length (reindexLoop_forget sorted startIndex 0)
        simpa using this
      rw [hlen]
      have hfeq : (fun j : Nat => some (startIndex - ((0 : Nat) : Int) + (j : Int)))
          = (fun j : Nat => some (startIndex + (j : Int))) := by
        funext j
        congr 1
        push_cast
        ring
      rw [hfeq]
    · intro s hsmem
      exact not_skip_iff.1 (reindexLoop_not_skip sorted startIndex 0 s hsmem)

/-- C6 witness: the spec's end-to-end scenario 1, where the second entry
has `start >= end` and is dropped. -/
theorem c6_witness :
    ∃ sorted,
      pySorted [⟨some 1, 0, 1000000, "Hello", ""⟩, ⟨some 2, 2500000, 1000000, "Bad", ""⟩]
        = .ok sorted
      ∧ ([(⟨some 1, 0, 1000000, "Hello", ""⟩ : Subtitle)]).map forgetIdx
          = (sorted.filter (fun s => !skipSub s)).map forgetIdx
      ∧ ([(⟨some 1, 0, 1000000, "Hello", ""⟩ : Subtitle)]).map Subtitle.index
          = (List.range ([(⟨some 1, 0, 1000000, "Hello", ""⟩ : Subtitle)]).length).map
              (fun j : Nat => some (1 + (j : Int)))
      ∧ ∀ s ∈ [(⟨some 1, 0, 1000000, "Hello", ""⟩ : Subtitle)],
          pyStrip s.content ≠ "" ∧ 0 ≤ s.start ∧ s.start < s.«end» :=
  c6_skip_and_reindex
    [⟨some 1, 0, 1000000, "Hello", ""⟩, ⟨some 2, 2500000, 1000000, "Bad", ""⟩]
    [⟨some 1, 0, 1000000, "Hello", ""⟩] 1 rfl

/-! ## Claim C2 -/

/-- C2 counterexample: the claim says the `parse_srt` stream is
monotonically non-decreasing in `start`.  With declared indices
inverting temporal order, both entries are valid and survive, but the
stream is ordered by index: starts 5 s then 0 s — decreasing. -/
theorem c2_counterexample :
    parseSrtSubs [⟨some 2, 0, 1000000, "B", ""⟩, ⟨some 1, 5000000, 6000000, "A", ""⟩] []
      = .ok [⟨some 1, 5000000, 6000000, "A", ""⟩, ⟨some 2, 0, 1000000, "B", ""⟩]
    ∧ ¬ List.Pairwise (fun a b => a.start ≤ b.start)
        [(⟨some 1, 5000000, 6000000, "A", ""⟩ : Subtitle), ⟨some 2, 0, 1000000, "B", ""⟩] := by
  constructor
  · rfl
  · decide

/-- C2 (amended): every subtitle surviving `parse_srt`'s sequencing and
filtering satisfies `0 <= start < end` with non-empty trimmed content,
and the stream is ordered by the freshly reassigned indices (the
dataclass `(index, start, end)` sort order of the survivors) — which is
non-decreasing in `start` only when declared indices agree with temporal
order; the emitted segments are the formatted `(start, end)` pairs in
that same order. -/
theorem c2_stream_invariant (subs : List Subtitle) (filters : List String)
    (l : List Subtitle) (h : parseSrtSubs subs filters = .ok l) :
    (∀ s ∈ l, pyStrip s.content ≠ "" ∧ 0 ≤ s.start ∧ s.start < s.«end»)
    ∧ l.Pairwise (fun a b => idxVal a.index < idxVal b.index)
    ∧ parseSrtSegments subs filters
        = .ok (l.map (fun s => (formatTimedelta s.start, formatTimedelta s.«end»))) := by
  have hseg : parseSrtSegments subs filters
      = .ok (l.map (fun s => (formatTimedelta s.start, formatTimedelta s.«end»))) := by
    rw [parseSrtSegments, h]
    rfl
  rw [parseSrtSubs] at h
  cases hsr : sortAndReindex subs 1 with
  | error e =>
    rw [hsr] at h
    cases h
  | ok out =>
    rw [hsr] at h
    injection h with h
    subst h
    rw [sortAndReindex] at hsr
    cases hps : pySorted subs with
    | error e =>
      rw [hps] at hsr
      cases hsr
    | ok sorted =>
      rw [hps] at hsr
      injection hsr with hsr
      subst hsr
      refine ⟨?_, ?_, hseg⟩
      · intro s hs
        have hs' : s ∈ reindexLoop sorted 1 0 := List.mem_of_mem_filter hs
        exact not_skip_iff.1 (reindexLoop_not_skip sorted 1 0 s hs')
      · have hmap := reindexLoop_indices sorted 1 0
        have h2 : ((reindexLoop sorted 1 0).map Subtitle.index).Pairwise
            (fun x y => idxVal x < idxVal y) := by
          rw [hmap, List.pairwise_map]
          refine (List.pairwise_lt_range _).imp ?_
          intro i j hij
          show idxVal (some (1 - ((0 : Nat) : Int) + (i : Int)))
            < idxVal (some (1 - ((0 : Nat) : Int) + (j : Int)))
          simp only [idxVal]
          omega
        have h1 : (reindexLoop sorted 1 0).Pairwise
            (fun a b => idxVal a.index < idxVal b.index) := by
          simp only [List.pairwise_map] at h2
          exact h2
        exact h1.sublist (List.filter_sublist _)

/-- C2 witness: the amended statement at a concrete valid stream. -/
theorem c2_witness :
    (∀ s ∈ [(⟨some 1, 0, 1000000, "Hello", ""⟩ : Subtitle)],
        pyStrip s.content ≠ "" ∧ 0 ≤ s.start ∧ s.start < s.«end»)
    ∧ List.Pairwise (fun a b => idxVal a.index < idxVal b.index)
        [(⟨some 1, 0, 1000000, "Hello", ""⟩ : Subtitle)]
    ∧ parseSrtSegments [⟨some 1, 0, 1000000, "Hello", ""⟩] []
        = .ok (([(⟨some 1, 0, 1000000, "Hello", ""⟩ : Subtitle)]).map
            (fun s => (formatTimedelta s.start, formatTimedelta s.«end»))) :=
  c2_stream_invariant [⟨some 1, 0, 1000000, "Hello", ""⟩] []
    [⟨some 1, 0, 1000000, "Hello", ""⟩] rfl

/-! ## Claim C7 -/

/-- C7: the content filter drops an entry iff its content contains some
exclusion token as a literal substring (case-sensitive, no word
boundaries; the `if filters` guard in the code is redundant since `any`
over an empty set is false), and retained entries pass through
unchanged (the output is a sublist of the input). -/
theorem c7_content_filter (subs : List Subtitle) (filters : List String) :
    contentFilter subs filters
      = subs.filter (fun s => !filters.any (fun w => decide (w.data <:+: s.content.data)))
    ∧ (contentFilter subs filters).Sublist subs
    ∧ ∀ s, s ∈ contentFilter subs filters
        ↔ s ∈ subs ∧ ¬ ∃ w ∈ filters, w.data <:+: s.content.data := by
  have hfeq : contentFilter subs filters
      = subs.filter (fun s => !filters.any (fun w => decide (w.data <:+: s.content.data))) := by
    rw [contentFilter]
    apply List.filter_congr
    intro s _
    cases filters with
    | nil => rfl
    | cons w ws => rfl
  refine ⟨hfeq, ?_, ?_⟩
  · rw [contentFilter]
    exact List.filter_sublist _
  · intro s
    rw [hfeq, List.mem_filter]
    apply and_congr_right
    intro _
    simp [List.any_eq_true]

/-! ## Claim C5 -/

theorem parseWalk_nil (srt : List Char) (expected : Nat) :
    parseWalk srt expected [] = checkContiguity srt expected srt.length := rfl

theorem parseWalk_cons (srt : List Char) (expected s e : Nat) (rest : List (Nat × Nat)) :
    parseWalk srt expected ((s, e) :: rest)
      = match checkContiguity srt expected s with
        | .error u => .error u
        | .ok _ => parseWalk srt e rest := rfl

theorem chainOk_nil (lo len : Nat) : chainOk lo [] len = decide (lo ≤ len) := rfl

theorem chainOk_cons (lo s e len : Nat) (rest : List (Nat × Nat)) :
    chainOk lo ((s, e) :: rest) len
      = (decide (lo ≤ s) && decide (s < e) && chainOk e rest len) := rfl

theorem gapsClosed_nil (srt : List Char) (prev : Nat) :
    gapsClosed srt prev [] = decide (prev = srt.length) := rfl

theorem gapsClosed_cons (srt : List Char) (prev s e : Nat) (rest : List (Nat × Nat)) :
    gapsClosed srt prev ((s, e) :: rest) = (decide (prev = s) && gapsClosed srt e rest) := rfl

theorem chainOk_le : ∀ (spans : List (Nat × Nat)) (lo len : Nat),
    chainOk lo spans len = true → lo ≤ len := by
  intro spans
  induction spans with
  | nil =>
    intro lo len h
    rw [chainOk_nil] at h
    exact of_decide_eq_true h
  | cons se rest ih =>
    obtain ⟨s, e⟩ := se
    intro lo len h
    rw [chainOk_cons] at h
    simp only [Bool.and_eq_true, decide_eq_true_eq] at h
    obtain ⟨⟨h1, h2⟩, h3⟩ := h
    have := ih e len h3
    omega

theorem checkContiguity_self (srt : List Char) (expected : Nat) :
    checkContiguity srt expected expected = .ok () := by
  rw [checkContiguity, if_pos rfl]

theorem checkContiguity_ok_iff_pos {srt : List Char} {expected actual : Nat}
    (hpos : 0 < expected) :
    checkContiguity srt expected actual = .ok () ↔ expected = actual := by
  rw [checkContiguity]
  by_cases h : expected = actual
  · simp [h]
  · rw [if_neg h, if_neg (by rintro ⟨h0, -⟩; omega)]
    simp [h]

/-- The walk after the first match (any strictly positive expected
offset) succeeds exactly when every remaining gap is empty. -/
theorem parseWalk_inner (srt : List Char) : ∀ (spans : List (Nat × Nat)) (expected : Nat),
    0 < expected → chainOk expected spans srt.length = true →
    ((parseWalk srt expected spans = .ok ()) ↔ gapsClosed srt expected spans = true) := by
  intro spans
  induction spans with
  | nil =>
    intro expected hpos _
    rw [parseWalk_nil, gapsClosed_nil, checkContiguity_ok_iff_pos hpos]
    simp
  | cons se rest ih =>
    obtain ⟨s, e⟩ := se
    intro expected hpos hchain
    rw [chainOk_cons] at hchain
    simp only [Bool.and_eq_true, decide_eq_true_eq] at hchain
    obtain ⟨⟨hle, hlt⟩, hrest⟩ := hchain
    rw [parseWalk_cons, gapsClosed_cons]
    by_cases heq : expected = s
    · rw [show checkContiguity srt expected s = .ok () from heq ▸ checkContiguity_self srt expected]
      show (parseWalk srt e rest = .ok ()) ↔ _
      rw [ih e (by omega) hrest]
      simp [heq]
    · have herr : checkContiguity srt expected s
          = .error ((srt.drop expected).take (s - expected)) := by
        rw [checkContiguity, if_neg heq, if_neg (by rintro ⟨h0, -⟩; omega)]
      rw [herr]
      show (Except.error _ = .ok ()) ↔ _
      simp [heq]

/-- C5: on any well-formed span list, the gap-checking walk of
`SRT.parse` succeeds iff the spec's contiguity rule holds: the gap
before the very first match is empty, pure whitespace or exactly a
byte-order marker, and every other gap — between consecutive matches
and from the last match to the end of the buffer — is empty; any other
buffer makes it raise `MalformedInput` carrying the offending
substring. -/
theorem c5_contiguity (srt : List Char) (spans : List (Nat × Nat))
    (hchain : chainOk 0 spans srt.length = true) :
    (parseWalk srt 0 spans = .ok ()) ↔ specContiguityOk srt spans = true := by
  cases spans with
  | nil =>
    rw [parseWalk_nil]
    show _ ↔ leadGapOk srt = true
    rw [checkContiguity]
    by_cases h : (0 : Nat) = srt.length
    · rw [if_pos h]
      have hnil : srt = [] := List.length_eq_zero.1 h.symm
      subst hnil
      simp [leadGapOk]
    · rw [if_neg h]
      have hun : (srt.drop 0).take (srt.length - 0) = srt := by simp
      by_cases hws : pyIsSpaceStr srt = true ∨ srt = ['﻿']
      · rw [if_pos ⟨rfl, by rw [hun]; exact hws⟩]
        have hlg : leadGapOk srt = true := by
          rcases hws with h1 | h1 <;> simp [leadGapOk, h1]
        simp [hlg]
      · rw [if_neg (by rintro ⟨-, hd⟩; rw [hun] at hd; exact hws hd)]
        push_neg at hws
        have hne : srt ≠ [] := by
          intro hnil
          exact h (by rw [hnil]; rfl)
        have hlg : leadGapOk srt = false := by
          simp [leadGapOk, List.isEmpty_iff, hne, hws.1, hws.2]
        simp [hlg]
  | cons se rest =>
    obtain ⟨s, e⟩ := se
    rw [chainOk_cons] at hchain
    simp only [Bool.and_eq_true, decide_eq_true_eq] at hchain
    obtain ⟨⟨hle, hlt⟩, hrest⟩ := hchain
    rw [parseWalk_cons]
    show _ ↔ (leadGapOk (srt.take s) && gapsClosed srt e rest) = true
    by_cases heq : (0 : Nat) = s
    · rw [show checkContiguity srt 0 s = .ok () from heq ▸ checkContiguity_self srt 0]
      show (parseWalk srt e rest = .ok ()) ↔ _
      rw [parseWalk_inner srt rest e (by omega) hrest]
      rw [← heq]
      simp [leadGapOk]
    · rw [checkContiguity, if_neg heq]
      have hun : (srt.drop 0).take (s - 0) = srt.take s := by simp
      by_cases hws : pyIsSpaceStr (srt.take s) = true ∨ srt.take s = ['﻿']
      · rw [if_pos ⟨rfl, by rw [hun]; exact hws⟩]
        show (parseWalk srt e rest = .ok ()) ↔ _
        rw [parseWalk_inner srt rest e (by omega) hrest]
        have hlg : leadGapOk (srt.take s) = true := by
          rcases hws with h1 | h1 <;> simp [leadGapOk, h1]
        simp [hlg]
      · rw [if_neg (by rintro ⟨-, hd⟩; rw [hun] at hd; exact hws hd)]
        have hlen : e ≤ srt.length := chainOk_le rest e srt.length hrest
        have hne : srt.take s ≠ [] := by
          rw [Ne, List.take_eq_nil_iff]
          rintro (h0 | hnil)
          · exact heq h0.symm
          · rw [hnil] at hlen
            simp at hlen
            omega
        push_neg at hws
        have hlg : leadGapOk (srt.take s) = false := by
          simp [leadGapOk, List.isEmpty_iff, hne, hws.1, hws.2]
        simp [hlg]

/-- C5 witness: a buffer with a single whitespace byte before its only
match parses; the theorem instance is evaluated on it. -/
theorem c5_witness :
    chainOk 0 [(1, 2)] (([' ', 'x'] : List Char)).length = true
    ∧ ((parseWalk [' ', 'x'] 0 [(1, 2)] = .ok ())
        ↔ specContiguityOk [' ', 'x'] [(1, 2)] = true) :=
  ⟨by decide, c5_contiguity [' ', 'x'] [(1, 2)] (by decide)⟩

end Condense

